import Mathlib

/-!
Shallow embedding of `src/frequenz/channels/select.py`.

The Python module defines a class `Select` that multiplexes several named
async iterators.  Its mutable state is:

  * `_receivers` — the registration mapping (here: the list of names; the
    iterators themselves are external and modelled by the `Outcome` each
    completed pull task delivers);
  * `_pending` — the set of outstanding pull tasks, each tagged with the
    name of the source that issued it;
  * `_ready_count` / `_prev_ready_count` — the readiness counter and the
    staleness baseline;
  * `_result` — the per-source pending-result slot dictionary
    (`None` = empty, `_Selected(inner)` = holding).

`Select.ready` is the central transition.  The completions delivered by the
one `asyncio.wait` call are modelled by an explicit `wake` argument: the
list of completed tasks in processing order, each with the outcome of its
pull (`ok v` — resolved with value `v`, where `v = none` models Python's
`None`; `stopIter` — raised `StopAsyncIteration`; `fault e` — raised any
other exception, which `item.result()` re-raises).  Mutations performed
before an exception propagates persist, exactly as in Python, so `ready`
returns the (possibly partial) state next to its `Except` result.

`Select.__getattr__` (the claim operation) is `Select.claim`; a `KeyError`
is the `Except.error` case.
-/

deriving instance DecidableEq for Except

/-- Wrapper class `_Selected` of select.py: `inner : Optional[Any]`.
`Selected.mk none` is the exhausted marker handed to the consumer. -/
structure Selected (V : Type) where
  inner : Option V
deriving DecidableEq

/-- A pending-result slot: an entry of the `_result` dict.  `empty` is the
Python value `None`, `held inner` is `_Selected(inner)` (with
`held none` the exhausted marker). -/
inductive Slot (V : Type) where
  | empty : Slot V
  | held (inner : Option V) : Slot V
deriving DecidableEq

/-- Whether a slot is in the holding (non-`None`) state. -/
def Slot.isHeld {V : Type} : Slot V → Bool
  | .empty => false
  | .held _ => true

/-- Outcome of a completed pull task, as observed by `Select.ready` through
`item.exception()` / `item.result()`:  `ok v` — the task resolved with the
value `v` (`v = none` models the ordinary Python value `None`); `stopIter`
— the task raised `StopAsyncIteration`; `fault e` — the task raised any
other exception `e`. -/
inductive Outcome (V E : Type) where
  | ok (v : Option V) : Outcome V E
  | stopIter : Outcome V E
  | fault (e : E) : Outcome V E
deriving DecidableEq

/-- The mutable state of a `Select` instance. -/
structure Select (V : Type) where
  receivers : List String
  pending : List String
  readyCount : Int
  prevReadyCount : Int
  result : List (String × Slot V)
deriving DecidableEq

/-- `Select.__init__(**kwargs)`: one pull task per registered source, both
counters zero, every slot empty. -/
def Select.init {V : Type} (names : List String) : Select V :=
  { receivers := names
    pending := names
    readyCount := 0
    prevReadyCount := 0
    result := names.map fun n => (n, Slot.empty) }

/-- Assignment `_result[name] = sl` for a key already present in the dict
(the only way select.py uses it: every written name is a registered one). -/
def setSlot {V : Type} (name : String) (sl : Slot V) (r : List (String × Slot V)) :
    List (String × Slot V) :=
  r.map fun p => if p.1 = name then (p.1, sl) else p

/-- Number of slots currently holding. -/
def countHeld {V : Type} (r : List (String × Slot V)) : Nat :=
  r.countP fun p => p.2.isHeld

/-- The names of the holding slots, in dict order: the `dropped_names`
collected by the stale-batch branch of `Select.ready` (lines 98–101). -/
def holdingNames {V : Type} (r : List (String × Slot V)) : List String :=
  r.filterMap fun p => match p.2 with
    | .empty => none
    | .held _ => some p.1

/-- The stale-batch branch of `Select.ready` (lines 98–109): clear every
holding slot, zero both counters, and report the dropped names. -/
def dropStale {V : Type} (s : Select V) : List String × Select V :=
  (holdingNames s.result,
   { s with
      result := s.result.map fun p => (p.1, Slot.empty)
      readyCount := 0
      prevReadyCount := 0 })

/-- The `for item in done` loop of `Select.ready` (lines 123–138).  A fault
re-raised by `item.result()` aborts the loop; the mutations already made
persist, as in Python.  `StopAsyncIteration` yields `result = None`; a slot
receives `_Selected(result)`, the counter is incremented, and a fresh pull
task is issued unless `result is None`. -/
def processDone {V E : Type} :
    List (String × Outcome V E) → Select V → Except E Bool × Select V
  | [], s => (.ok true, s)
  | (name, o) :: rest, s =>
    match o with
    | .fault e => (.error e, s)
    | .stopIter =>
      processDone rest
        { s with
            readyCount := s.readyCount + 1
            result := setSlot name (Slot.held none) s.result }
    | .ok v =>
      match v with
      | none =>
        processDone rest
          { s with
              readyCount := s.readyCount + 1
              result := setSlot name (Slot.held none) s.result }
      | some w =>
        processDone rest
          { s with
              readyCount := s.readyCount + 1
              result := setSlot name (Slot.held (some w)) s.result
              pending := s.pending ++ [name] }

/-- What one call to `Select.ready` returns: the Python return value (or
propagated exception), the source names reported by the stale-data warning
(empty when the warning did not fire), and the state after the call. -/
structure ReadyResult (V E : Type) where
  ret : Except E Bool
  dropped : List String
  state : Select V

/-- The state just after `asyncio.wait` returns (lines 118–122): the
staleness baseline is reset and the completed tasks leave the pending set. -/
def waitState {V E : Type} (s : Select V)
    (wake : List (String × Outcome V E)) : Select V :=
  { s with
      prevReadyCount := (0 : Int)
      pending := s.pending.filter fun n => !((wake.map Prod.fst).contains n) }

/-- Lines 113–139 of `Select.ready`: the part after the initial
readiness-counter checks.  If no pull is outstanding, return `False`;
otherwise reset the staleness baseline, wait, and process the completions. -/
def readyWait {V E : Type} (dropped : List String) (s : Select V)
    (wake : List (String × Outcome V E)) : ReadyResult V E :=
  if s.pending.isEmpty then
    { ret := .ok false, dropped := dropped, state := s }
  else
    { ret := (processDone wake (waitState s wake)).1
      dropped := dropped
      state := (processDone wake (waitState s wake)).2 }

/-- `Select.ready` (lines 96–139).  `wake` is the completion set delivered
by the single `asyncio.wait` call, in processing order; it is unused on the
paths that return before the wait. -/
def Select.ready {V E : Type} (s : Select V)
    (wake : List (String × Outcome V E)) : ReadyResult V E :=
  if 0 < s.readyCount then
    if s.readyCount = s.prevReadyCount then
      let d := dropStale s
      readyWait d.1 d.2 wake
    else
      { ret := .ok true
        dropped := []
        state := { s with prevReadyCount := s.readyCount } }
  else
    readyWait [] s wake

/-- `Select.__getattr__` (lines 141–159).  A name absent from `_result`
raises `KeyError` (the `Except.error` case); an empty slot returns `None`
without touching the state; a holding slot is cleared, the readiness
counter is decremented, and the `_Selected` wrapper is returned. -/
def Select.claim {V : Type} (s : Select V) (name : String) :
    Except Unit (Option (Selected V)) × Select V :=
  match s.result.lookup name with
  | none => (.error (), s)
  | some Slot.empty => (.ok none, s)
  | some (Slot.held inner) =>
    (.ok (some ⟨inner⟩),
     { s with
        result := setSlot name Slot.empty s.result
        readyCount := s.readyCount - 1 })

/-- One consumer-visible operation on a `Select` instance. -/
inductive Op (V E : Type) where
  | ready (wake : List (String × Outcome V E)) : Op V E
  | claim (name : String) : Op V E

/-- The state after one operation (return values discarded). -/
def applyOp {V E : Type} (s : Select V) : Op V E → Select V
  | .ready wake => (s.ready wake).state
  | .claim name => (s.claim name).2

/-- The state after a sequence of operations. -/
def applyOps {V E : Type} (s : Select V) : List (Op V E) → Select V
  | [] => s
  | op :: ops => applyOps (applyOp s op) ops

/-- A completion set `asyncio.wait` can actually deliver: completed tasks
are outstanding ones, and a task completes at most once per wait. -/
def WakeValid {V E : Type} (s : Select V) (wake : List (String × Outcome V E)) : Prop :=
  (∀ n ∈ wake.map Prod.fst, n ∈ s.pending) ∧ (wake.map Prod.fst).Nodup

/-- An operation whose environment behaves as asyncio does. -/
def OpValid {V E : Type} (s : Select V) : Op V E → Prop
  | .ready wake => WakeValid s wake
  | .claim _ => True

/-- States reachable from construction by `ready` (with a valid completion
set) and `claim` operations. -/
inductive Reachable {V E : Type} : Select V → Prop where
  | start (names : List String) (h : names.Nodup) : Reachable (Select.init names)
  | step_ready (s : Select V) (wake : List (String × Outcome V E))
      (hs : Reachable (E := E) s) (hw : WakeValid s wake) :
      Reachable (Select.ready s wake).state
  | step_claim (s : Select V) (name : String) (hs : Reachable (E := E) s) :
      Reachable (s.claim name).2

example : (Select.init (V := Nat) ["A"]).readyCount = 0 := rfl

example :
    ((Select.init (V := Nat) ["A"]).ready
        (E := Nat) [("A", Outcome.ok (some 1))]).ret = .ok true := by
  decide

/-! ### Association-list helper lemmas -/

theorem lookup_cons {V : Type} (n k : String) (w : Slot V)
    (r : List (String × Slot V)) :
    List.lookup n ((k, w) :: r) = if n = k then some w else List.lookup n r := by
  by_cases h : n = k
  · subst h
    simp [List.lookup]
  · have hb : (n == k) = false := beq_eq_false_iff_ne.mpr h
    simp [List.lookup, hb, h]

theorem setSlot_cons {V : Type} (name k : String) (sl w : Slot V)
    (r : List (String × Slot V)) :
    setSlot name sl ((k, w) :: r) =
      (if k = name then (k, sl) else (k, w)) :: setSlot name sl r := by
  by_cases h : k = name <;> simp [setSlot, h]

theorem keys_setSlot {V : Type} (name : String) (sl : Slot V)
    (r : List (String × Slot V)) :
    (setSlot name sl r).map Prod.fst = r.map Prod.fst := by
  induction r with
  | nil => rfl
  | cons p r ih =>
    rcases p with ⟨k, w⟩
    rw [setSlot_cons]
    by_cases h : k = name <;> simp [h, ih]

theorem lookup_setSlot_self {V : Type} (name : String) (sl : Slot V)
    (r : List (String × Slot V)) :
    (setSlot name sl r).lookup name = (r.lookup name).map fun _ => sl := by
  induction r with
  | nil => rfl
  | cons p r ih =>
    rcases p with ⟨k, w⟩
    rw [setSlot_cons]
    by_cases h : k = name
    · rw [if_pos h, lookup_cons, lookup_cons, if_pos h.symm, if_pos h.symm]
      rfl
    · have h' : name ≠ k := fun hc => h hc.symm
      rw [if_neg h, lookup_cons, lookup_cons, if_neg h', if_neg h']
      exact ih

theorem lookup_setSlot_other {V : Type} (name n : String) (sl : Slot V)
    (r : List (String × Slot V)) (h : n ≠ name) :
    (setSlot name sl r).lookup n = r.lookup n := by
  induction r with
  | nil => rfl
  | cons p r ih =>
    rcases p with ⟨k, w⟩
    rw [setSlot_cons]
    by_cases hk : k = name
    · have h' : n ≠ k := fun hc => h (hc.trans hk)
      rw [if_pos hk, lookup_cons, lookup_cons, if_neg h', if_neg h']
      exact ih
    · rw [if_neg hk, lookup_cons, lookup_cons]
      by_cases hn : n = k <;> simp [hn, ih]

theorem setSlot_not_mem {V : Type} (name : String) (sl : Slot V)
    (r : List (String × Slot V)) (h : name ∉ r.map Prod.fst) :
    setSlot name sl r = r := by
  induction r with
  | nil => rfl
  | cons p r ih =>
    rcases p with ⟨k, w⟩
    simp only [List.map_cons, List.mem_cons, not_or] at h
    rw [setSlot_cons, if_neg (fun hc : k = name => h.1 hc.symm), ih h.2]

theorem lookup_eq_none_of_not_mem {V : Type} (n : String)
    (r : List (String × Slot V)) (h : n ∉ r.map Prod.fst) :
    r.lookup n = none := by
  induction r with
  | nil => rfl
  | cons p r ih =>
    rcases p with ⟨k, w⟩
    simp only [List.map_cons, List.mem_cons, not_or] at h
    rw [lookup_cons, if_neg h.1]
    exact ih h.2

theorem mem_of_lookup_eq_some {V : Type} (n : String) (sl : Slot V)
    (r : List (String × Slot V)) (h : r.lookup n = some sl) : (n, sl) ∈ r := by
  induction r with
  | nil => simp [List.lookup] at h
  | cons p r ih =>
    rcases p with ⟨k, w⟩
    rw [lookup_cons] at h
    by_cases hn : n = k
    · rw [if_pos hn] at h
      cases h
      subst hn
      exact List.mem_cons_self _ _
    · rw [if_neg hn] at h
      exact List.mem_cons_of_mem _ (ih h)

theorem lookup_isSome_of_mem {V : Type} (n : String)
    (r : List (String × Slot V)) (h : n ∈ r.map Prod.fst) :
    (r.lookup n).isSome := by
  induction r with
  | nil => simp at h
  | cons p r ih =>
    rcases p with ⟨k, w⟩
    rw [lookup_cons]
    by_cases hn : n = k
    · simp [hn]
    · simp only [List.map_cons, List.mem_cons] at h
      rcases h with h | h
      · exact absurd h hn
      · rw [if_neg hn]
        exact ih h

theorem lookup_eq_some_empty {V : Type} (n : String)
    (r : List (String × Slot V)) (hall : ∀ p ∈ r, p.2 = Slot.empty)
    (hmem : n ∈ r.map Prod.fst) : r.lookup n = some Slot.empty := by
  cases h : r.lookup n with
  | none =>
    have := lookup_isSome_of_mem n r hmem
    rw [h] at this
    simp at this
  | some sl =>
    have := hall _ (mem_of_lookup_eq_some n sl r h)
    simp at this
    rw [this]

/-! ### countHeld helper lemmas -/

theorem countHeld_cons {V : Type} (k : String) (w : Slot V)
    (r : List (String × Slot V)) :
    countHeld ((k, w) :: r) = countHeld r + (if w.isHeld then 1 else 0) := by
  simp [countHeld, List.countP_cons]

theorem countHeld_all_empty {V : Type} (r : List (String × Slot V))
    (h : ∀ p ∈ r, p.2 = Slot.empty) : countHeld r = 0 := by
  simp only [countHeld, List.countP_eq_zero]
  intro p hp
  rw [h p hp]
  simp [Slot.isHeld]

theorem all_empty_of_countHeld_zero {V : Type} (r : List (String × Slot V))
    (h : countHeld r = 0) : ∀ p ∈ r, p.2 = Slot.empty := by
  simp only [countHeld, List.countP_eq_zero] at h
  intro p hp
  have hb := h p hp
  cases hsl : p.2 with
  | empty => rfl
  | held v => rw [hsl] at hb; simp [Slot.isHeld] at hb

theorem countHeld_setSlot_held {V : Type} (n : String) (v : Option V)
    (r : List (String × Slot V)) (hnd : (r.map Prod.fst).Nodup)
    (h : r.lookup n = some Slot.empty) :
    countHeld (setSlot n (Slot.held v) r) = countHeld r + 1 := by
  induction r with
  | nil => simp [List.lookup] at h
  | cons p r ih =>
    rcases p with ⟨k, w⟩
    simp only [List.map_cons, List.nodup_cons] at hnd
    rw [lookup_cons] at h
    rw [setSlot_cons]
    by_cases hk : k = n
    · have hrest : setSlot n (Slot.held v) r = r :=
        setSlot_not_mem n _ r (hk ▸ hnd.1)
      rw [if_pos hk, hrest, if_pos hk.symm] at *
      cases h
      rw [countHeld_cons, countHeld_cons]
      simp [Slot.isHeld]
    · have hn : n ≠ k := fun hc => hk hc.symm
      rw [if_neg hn] at h
      rw [if_neg hk, countHeld_cons, countHeld_cons, ih hnd.2 h]
      omega

theorem countHeld_setSlot_empty {V : Type} (n : String) (v : Option V)
    (r : List (String × Slot V)) (hnd : (r.map Prod.fst).Nodup)
    (h : r.lookup n = some (Slot.held v)) :
    countHeld r = countHeld (setSlot n Slot.empty r) + 1 := by
  induction r with
  | nil => simp [List.lookup] at h
  | cons p r ih =>
    rcases p with ⟨k, w⟩
    simp only [List.map_cons, List.nodup_cons] at hnd
    rw [lookup_cons] at h
    rw [setSlot_cons]
    by_cases hk : k = n
    · have hrest : setSlot n Slot.empty r = r :=
        setSlot_not_mem n _ r (hk ▸ hnd.1)
      rw [if_pos hk, hrest, if_pos hk.symm] at *
      cases h
      rw [countHeld_cons, countHeld_cons]
      simp [Slot.isHeld]
    · have hn : n ≠ k := fun hc => hk hc.symm
      rw [if_neg hn] at h
      rw [if_neg hk, countHeld_cons, countHeld_cons]
      have := ih hnd.2 h
      omega

/-! ### processDone helper lemmas -/

theorem processDone_receivers {V E : Type} (wake : List (String × Outcome V E)) :
    ∀ s : Select V, ((processDone wake s).2).receivers = s.receivers := by
  induction wake with
  | nil => intro s; rfl
  | cons item rest ih =>
    intro s
    rcases item with ⟨name, o⟩
    cases o with
    | fault e => rfl
    | stopIter => rw [processDone, ih]
    | ok v =>
      cases v with
      | none => rw [processDone, ih]
      | some w => rw [processDone, ih]

theorem processDone_keys {V E : Type} (wake : List (String × Outcome V E)) :
    ∀ s : Select V,
      ((processDone wake s).2).result.map Prod.fst = s.result.map Prod.fst := by
  induction wake with
  | nil => intro s; rfl
  | cons item rest ih =>
    intro s
    rcases item with ⟨name, o⟩
    cases o with
    | fault e => rfl
    | stopIter => rw [processDone, ih]; exact keys_setSlot _ _ _
    | ok v =>
      cases v with
      | none => rw [processDone, ih]; exact keys_setSlot _ _ _
      | some w => rw [processDone, ih]; exact keys_setSlot _ _ _

theorem processDone_count_mono {V E : Type} (wake : List (String × Outcome V E)) :
    ∀ s : Select V, s.readyCount ≤ ((processDone wake s).2).readyCount := by
  induction wake with
  | nil => intro s; exact le_refl _
  | cons item rest ih =>
    intro s
    rcases item with ⟨name, o⟩
    cases o with
    | fault e => exact le_refl _
    | stopIter =>
      rw [processDone]
      refine le_trans ?_ (ih _)
      simp
    | ok v =>
      cases v with
      | none =>
        rw [processDone]
        refine le_trans ?_ (ih _)
        simp
      | some w =>
        rw [processDone]
        refine le_trans ?_ (ih _)
        simp

theorem processDone_pending_sub {V E : Type} (wake : List (String × Outcome V E)) :
    ∀ (s : Select V) (n : String), n ∈ ((processDone wake s).2).pending →
      n ∈ s.pending ∨ n ∈ wake.map Prod.fst := by
  induction wake with
  | nil => intro s n h; exact Or.inl h
  | cons item rest ih =>
    intro s n h
    rcases item with ⟨name, o⟩
    cases o with
    | fault e => exact Or.inl h
    | stopIter =>
      rw [processDone] at h
      rcases ih _ n h with h' | h'
      · exact Or.inl h'
      · exact Or.inr (List.mem_cons_of_mem _ h')
    | ok v =>
      cases v with
      | none =>
        rw [processDone] at h
        rcases ih _ n h with h' | h'
        · exact Or.inl h'
        · exact Or.inr (List.mem_cons_of_mem _ h')
      | some w =>
        rw [processDone] at h
        rcases ih _ n h with h' | h'
        · simp at h'
          rcases h' with h' | h'
          · exact Or.inl h'
          · exact Or.inr (by simp [h'])
        · exact Or.inr (List.mem_cons_of_mem _ h')

theorem processDone_lookup_not_mem {V E : Type} (wake : List (String × Outcome V E)) :
    ∀ (s : Select V) (n : String), n ∉ wake.map Prod.fst →
      ((processDone wake s).2).result.lookup n = s.result.lookup n := by
  induction wake with
  | nil => intro s n _; rfl
  | cons item rest ih =>
    intro s n h
    rcases item with ⟨name, o⟩
    simp only [List.map_cons, List.mem_cons, not_or] at h
    cases o with
    | fault e => rfl
    | stopIter =>
      rw [processDone, ih _ n h.2]
      exact lookup_setSlot_other name n _ _ h.1
    | ok v =>
      cases v with
      | none =>
        rw [processDone, ih _ n h.2]
        exact lookup_setSlot_other name n _ _ h.1
      | some w =>
        rw [processDone, ih _ n h.2]
        exact lookup_setSlot_other name n _ _ h.1

theorem processDone_pending_not_mem {V E : Type} (wake : List (String × Outcome V E))
    (s : Select V) (n : String) (h1 : n ∉ wake.map Prod.fst)
    (h2 : n ∉ s.pending) : n ∉ ((processDone wake s).2).pending := by
  intro hc
  rcases processDone_pending_sub wake s n hc with h | h
  · exact h2 h
  · exact h1 h

theorem processDone_count_held {V E : Type} (wake : List (String × Outcome V E)) :
    ∀ s : Select V,
      (∀ n ∈ wake.map Prod.fst, s.result.lookup n = some Slot.empty) →
      (wake.map Prod.fst).Nodup →
      (s.result.map Prod.fst).Nodup →
      s.readyCount = (countHeld s.result : Int) →
      ((processDone wake s).2).readyCount =
        (countHeld ((processDone wake s).2).result : Int) := by
  induction wake with
  | nil => intro s _ _ _ h; exact h
  | cons item rest ih =>
    intro s hemp hnd hknd hcount
    rcases item with ⟨name, o⟩
    simp only [List.map_cons, List.nodup_cons] at hnd
    have hname : s.result.lookup name = some Slot.empty :=
      hemp name (by simp)
    have hrest : ∀ v : Option V,
        (∀ n ∈ rest.map Prod.fst,
          (setSlot name (Slot.held v) s.result).lookup n = some Slot.empty) := by
      intro v n hn
      have hne : n ≠ name := fun hc => hnd.1 (hc ▸ hn)
      rw [lookup_setSlot_other name n _ _ hne]
      exact hemp n (List.mem_cons_of_mem _ hn)
    have hkeys : ∀ sl : Slot V,
        ((setSlot name sl s.result).map Prod.fst).Nodup := by
      intro sl
      rw [keys_setSlot]
      exact hknd
    have hcnt : ∀ v : Option V,
        s.readyCount + 1 =
          (countHeld (setSlot name (Slot.held v) s.result) : Int) := by
      intro v
      rw [countHeld_setSlot_held name v s.result hknd hname, hcount]
      push_cast
      ring
    cases o with
    | fault e => exact hcount
    | stopIter =>
      rw [processDone]
      exact ih _ (hrest none) hnd.2 (hkeys _) (hcnt none)
    | ok v =>
      cases v with
      | none =>
        rw [processDone]
        exact ih _ (hrest none) hnd.2 (hkeys _) (hcnt none)
      | some w =>
        rw [processDone]
        exact ih _ (hrest (some w)) hnd.2 (hkeys _) (hcnt (some w))

theorem processDone_pending_nodup {V E : Type} (wake : List (String × Outcome V E)) :
    ∀ s : Select V,
      (∀ n ∈ wake.map Prod.fst, n ∉ s.pending) →
      (wake.map Prod.fst).Nodup →
      s.pending.Nodup →
      ((processDone wake s).2).pending.Nodup := by
  induction wake with
  | nil => intro s _ _ h; exact h
  | cons item rest ih =>
    intro s hout hnd hpnd
    rcases item with ⟨name, o⟩
    simp only [List.map_cons, List.nodup_cons] at hnd
    have hrestout : ∀ n ∈ rest.map Prod.fst, n ∉ s.pending :=
      fun n hn => hout n (List.mem_cons_of_mem _ hn)
    cases o with
    | fault e => exact hpnd
    | stopIter =>
      rw [processDone]
      exact ih _ hrestout hnd.2 hpnd
    | ok v =>
      cases v with
      | none =>
        rw [processDone]
        exact ih _ hrestout hnd.2 hpnd
      | some w =>
        rw [processDone]
        apply ih _ _ hnd.2
        · simp [List.nodup_append, hpnd]
          exact hout name (by simp)
        · intro n hn
          simp
          constructor
          · exact hrestout n hn
          · exact fun hc => hnd.1 (hc ▸ hn)

/-! ### The state invariant and reachability -/

/-- Structural invariant of a `Select` instance: names are unique, the
`_result` dict is keyed exactly by the registered names, the pending tasks
carry registered names with at most one task per name, and the readiness
counter counts the holding slots. -/
structure SelectInv {V : Type} (s : Select V) : Prop where
  recv_nodup : s.receivers.Nodup
  keys_eq : s.result.map Prod.fst = s.receivers
  pend_sub : ∀ n ∈ s.pending, n ∈ s.receivers
  pend_nodup : s.pending.Nodup
  count_eq : s.readyCount = (countHeld s.result : Int)

theorem keys_init {V : Type} (names : List String) :
    ((names.map fun n => (n, (Slot.empty : Slot V))).map Prod.fst) = names := by
  induction names with
  | nil => rfl
  | cons a l ih => simp only [List.map_cons, Prod.fst] at ih ⊢; rw [ih]

theorem inv_init {V : Type} (names : List String) (h : names.Nodup) :
    SelectInv (Select.init (V := V) names) := by
  refine ⟨h, ?_, fun n hn => hn, h, ?_⟩
  · exact keys_init names
  · rw [countHeld_all_empty]
    · rfl
    · intro p hp
      simp only [Select.init, List.mem_map] at hp
      obtain ⟨n, _, rfl⟩ := hp
      rfl

theorem inv_claim {V : Type} (s : Select V) (name : String) (h : SelectInv s) :
    SelectInv (s.claim name).2 := by
  rcases h with ⟨h1, h2, h3, h4, h5⟩
  unfold Select.claim
  cases hl : s.result.lookup name with
  | none => exact ⟨h1, h2, h3, h4, h5⟩
  | some sl =>
    cases sl with
    | empty => exact ⟨h1, h2, h3, h4, h5⟩
    | held inner =>
      refine ⟨h1, ?_, h3, h4, ?_⟩
      · rw [keys_setSlot]
        exact h2
      · have hknd : (s.result.map Prod.fst).Nodup := h2 ▸ h1
        have := countHeld_setSlot_empty name inner s.result hknd hl
        simp only []
        omega

theorem inv_readyWait {V E : Type} (dropped : List String) (s : Select V)
    (wake : List (String × Outcome V E)) (h : SelectInv s)
    (hz : s.readyCount = 0) (hw : WakeValid s wake) :
    SelectInv (readyWait dropped s wake).state := by
  rcases h with ⟨h1, h2, h3, h4, h5⟩
  rcases hw with ⟨hw1, hw2⟩
  unfold readyWait
  by_cases hemp : s.pending.isEmpty
  · simp only [hemp, if_true]
    exact ⟨h1, h2, h3, h4, h5⟩
  · simp only [hemp, Bool.false_eq_true, if_false]
    show SelectInv (processDone wake (waitState s wake)).2
    have hallemp : ∀ p ∈ s.result, p.2 = Slot.empty := by
      apply all_empty_of_countHeld_zero
      omega
    have hknd : (s.result.map Prod.fst).Nodup := h2 ▸ h1
    have hfsub : ∀ n ∈ (waitState s wake).pending, n ∈ s.pending :=
      fun n hn => (List.mem_filter.mp hn).1
    have hfout : ∀ n ∈ wake.map Prod.fst, n ∉ (waitState s wake).pending := by
      intro n hn hc
      have hb := (List.mem_filter.mp hc).2
      have ht : (wake.map Prod.fst).contains n = true := List.elem_iff.mpr hn
      rw [ht] at hb
      simp at hb
    constructor
    · rw [processDone_receivers]
      exact h1
    · rw [processDone_keys, processDone_receivers]
      exact h2
    · intro n hn
      rw [processDone_receivers]
      rcases processDone_pending_sub wake _ n hn with h' | h'
      · exact h3 n (hfsub n h')
      · exact h3 n (hw1 n h')
    · apply processDone_pending_nodup wake _ hfout hw2
      exact h4.filter _
    · refine processDone_count_held wake (waitState s wake) ?_ hw2 hknd h5
      intro n hn
      apply lookup_eq_some_empty n s.result hallemp
      rw [h2]
      exact h3 n (hw1 n hn)

theorem inv_dropStale {V : Type} (s : Select V) (h : SelectInv s) :
    SelectInv (dropStale s).2 ∧ (dropStale s).2.readyCount = 0 := by
  rcases h with ⟨h1, h2, h3, h4, _⟩
  refine ⟨⟨h1, ?_, h3, h4, ?_⟩, rfl⟩
  · show ((s.result.map fun p => (p.1, (Slot.empty : Slot V))).map Prod.fst)
        = s.receivers
    rw [← h2]
    induction s.result with
    | nil => rfl
    | cons p r ih => simp only [List.map_cons] at ih ⊢; rw [ih]
  · show (0 : Int) = _
    rw [countHeld_all_empty]
    · rfl
    · intro p hp
      obtain ⟨q, _, rfl⟩ := List.mem_map.mp hp
      rfl

theorem dropStale_pending {V : Type} (s : Select V) :
    (dropStale s).2.pending = s.pending := rfl

theorem inv_ready {V E : Type} (s : Select V)
    (wake : List (String × Outcome V E)) (h : SelectInv s)
    (hw : WakeValid s wake) : SelectInv (s.ready wake).state := by
  unfold Select.ready
  by_cases h1 : 0 < s.readyCount
  · rw [if_pos h1]
    by_cases h2 : s.readyCount = s.prevReadyCount
    · rw [if_pos h2]
      show SelectInv (readyWait (dropStale s).1 (dropStale s).2 wake).state
      obtain ⟨hinv, hz⟩ := inv_dropStale s h
      exact inv_readyWait _ _ wake hinv hz ⟨fun n hn => hw.1 n hn, hw.2⟩
    · rw [if_neg h2]
      rcases h with ⟨i1, i2, i3, i4, i5⟩
      exact ⟨i1, i2, i3, i4, i5⟩
  · rw [if_neg h1]
    have hz : s.readyCount = 0 := by
      rcases h with ⟨_, _, _, _, i5⟩
      omega
    exact inv_readyWait _ _ wake h hz hw

theorem reachable_inv {V E : Type} (s : Select V)
    (h : Reachable (E := E) s) : SelectInv s := by
  induction h with
  | start names hnd => exact inv_init names hnd
  | step_ready t wake _ hw ih => exact inv_ready t wake ih hw
  | step_claim t name _ ih => exact inv_claim t name ih

/-! ### Claim theorems -/

/-- C7: in a state whose readiness counter is nonzero and differs from the
staleness baseline, `Select.ready` records the counter as the new baseline
and returns `True` immediately: no diagnostic fires, no slot changes, the
pending set is untouched, and the wait primitive is never consulted (the
completion set `wake` does not occur in the result). -/
theorem ready_short_circuit {V E : Type} (s : Select V)
    (wake : List (String × Outcome V E))
    (h1 : 0 < s.readyCount) (h2 : s.readyCount ≠ s.prevReadyCount) :
    s.ready wake =
      { ret := .ok true
        dropped := []
        state := { s with prevReadyCount := s.readyCount } } := by
  unfold Select.ready
  rw [if_pos h1, if_neg h2]

/-- Witness for C7 at a concrete state. -/
theorem ready_short_circuit_witness :
    Select.ready (V := Nat) (E := Nat)
        ⟨["A"], ["A"], 1, 0, [("A", Slot.held (some 1))]⟩ [] =
      { ret := .ok true
        dropped := []
        state := ⟨["A"], ["A"], 1, 1, [("A", Slot.held (some 1))]⟩ } :=
  ready_short_circuit ⟨["A"], ["A"], 1, 0, [("A", Slot.held (some 1))]⟩ []
    (by decide) (by decide)

/-- C5: `Select.claim` (`__getattr__`) on a registered name: an empty slot
returns `None` (distinct from the exhausted marker `_Selected(None)`,
i.e. `some ⟨none⟩`) and leaves the state unchanged; a holding slot is
cleared to empty, the readiness counter drops by exactly one, and the
wrapped contents are returned. -/
theorem claim_slot_spec {V : Type} (s : Select V) (name : String) (sl : Slot V)
    (h : s.result.lookup name = some sl) :
    (sl = Slot.empty → s.claim name = (.ok none, s)) ∧
    (∀ inner, sl = Slot.held inner →
        s.claim name =
          (.ok (some ⟨inner⟩),
           { s with
              result := setSlot name Slot.empty s.result
              readyCount := s.readyCount - 1 })) ∧
    ((none : Option (Selected V)) ≠ some ⟨none⟩) := by
  refine ⟨?_, ?_, by simp⟩
  · intro he
    subst he
    unfold Select.claim
    rw [h]
  · intro inner he
    subst he
    unfold Select.claim
    rw [h]

/-- Witness for C5 at a concrete state with a holding slot. -/
theorem claim_slot_spec_witness :
    (Select.claim (V := Nat)
      ⟨["A"], [], 1, 1, [("A", Slot.held (some 7))]⟩ "A").1 =
      .ok (some ⟨some 7⟩) := by
  have h := (claim_slot_spec (V := Nat)
      ⟨["A"], [], 1, 1, [("A", Slot.held (some 7))]⟩ "A"
      (Slot.held (some 7)) (by decide)).2.1 (some 7) rfl
  rw [h]

/-- C6: in any reachable state, claiming a name that was not registered at
construction raises `KeyError` and leaves the state unchanged. -/
theorem claim_unregistered_keyerror {V E : Type} (s : Select V) (name : String)
    (hr : Reachable (E := E) s) (h : name ∉ s.receivers) :
    s.claim name = (.error (), s) := by
  have hinv := reachable_inv s hr
  have hl : s.result.lookup name = none := by
    apply lookup_eq_none_of_not_mem
    rw [hinv.keys_eq]
    exact h
  unfold Select.claim
  rw [hl]

/-- Witness for C6: claiming the unregistered name B on a freshly built
instance registered with A alone. -/
theorem claim_unregistered_keyerror_witness :
    Select.claim (V := Nat) (Select.init ["A"]) "B" =
      (.error (), Select.init ["A"]) :=
  claim_unregistered_keyerror (Select.init ["A"]) "B"
    (Reachable.start (E := Nat) ["A"] (by decide)) (by decide)

/-- C8: in every reachable state the readiness counter equals the number of
slots currently holding. -/
theorem reachable_readyCount_eq_countHeld {V E : Type} (s : Select V)
    (hr : Reachable (E := E) s) :
    s.readyCount = (countHeld s.result : Int) :=
  (reachable_inv s hr).count_eq

/-- Witness for C8 on a state reached by one construction, one ready call
delivering a value, and one claim. -/
theorem reachable_readyCount_eq_countHeld_witness :
    ((Select.init (V := Nat) ["A", "B"]).ready
        (E := Nat) [("A", Outcome.ok (some 5))]).state.readyCount =
      (countHeld ((Select.init (V := Nat) ["A", "B"]).ready
        (E := Nat) [("A", Outcome.ok (some 5))]).state.result : Int) :=
  reachable_readyCount_eq_countHeld _
    (Reachable.step_ready _ _ (Reachable.start ["A", "B"] (by decide))
      (by constructor <;> decide))

/-- A terminated multiplexer: every source has signaled exhaustion and been
claimed — no outstanding pull, readiness counter zero, every slot empty. -/
def Terminal {V : Type} (s : Select V) : Prop :=
  s.pending = [] ∧ s.readyCount = 0 ∧ ∀ p ∈ s.result, p.2 = Slot.empty

theorem terminal_ready_eq {V E : Type} (s : Select V)
    (wake : List (String × Outcome V E)) (h : Terminal s) :
    s.ready wake = { ret := .ok false, dropped := [], state := s } := by
  obtain ⟨h1, h2, _⟩ := h
  unfold Select.ready
  rw [if_neg (by omega : ¬ 0 < s.readyCount)]
  unfold readyWait
  rw [h1]
  rfl

theorem terminal_claim_eq {V : Type} (s : Select V) (name : String)
    (h : Terminal s) : (s.claim name).2 = s := by
  obtain ⟨_, _, h3⟩ := h
  cases hl : s.result.lookup name with
  | none => unfold Select.claim; rw [hl]
  | some sl =>
    have hsl : sl = Slot.empty := h3 _ (mem_of_lookup_eq_some _ _ _ hl)
    subst hsl
    unfold Select.claim
    rw [hl]

theorem terminal_applyOps {V E : Type} (ops : List (Op V E)) :
    ∀ s : Select V, Terminal s → Terminal (applyOps s ops) := by
  induction ops with
  | nil => intro s h; exact h
  | cons op ops ih =>
    intro s h
    show Terminal (applyOps (applyOp s op) ops)
    apply ih
    cases op with
    | ready wake =>
      show Terminal (s.ready wake).state
      rw [terminal_ready_eq s wake h]
      exact h
    | claim name =>
      show Terminal (s.claim name).2
      rw [terminal_claim_eq s name h]
      exact h

/-- C3: from a terminated state (all sources exhausted and claimed: empty
pending set, zero readiness counter, all slots empty), `Select.ready`
returns `False`, and it still returns `False` after any further sequence of
ready/claim operations — the terminal state is permanent. -/
theorem ready_terminal_permanent {V E : Type} (s : Select V) (h : Terminal s) :
    ∀ (ops : List (Op V E)) (wake : List (String × Outcome V E)),
      ((applyOps s ops).ready wake).ret = .ok false := by
  intro ops wake
  rw [terminal_ready_eq _ wake (terminal_applyOps ops s h)]

/-- Witness for C3: a concrete terminal state stays `False` after a claim
and a further ready call. -/
theorem ready_terminal_permanent_witness :
    ((applyOps (V := Nat) (E := Nat) ⟨["A"], [], 0, 0, [("A", Slot.empty)]⟩
        [Op.claim "A", Op.ready []]).ready
        [(("A", Outcome.stopIter) : String × Outcome Nat Nat)]).ret =
      .ok false :=
  ready_terminal_permanent ⟨["A"], [], 0, 0, [("A", Slot.empty)]⟩
    ⟨rfl, rfl, by decide⟩ [Op.claim "A", Op.ready []] [("A", Outcome.stopIter)]

/-- C4: a completed pull that raised anything other than
`StopAsyncIteration` makes `Select.ready` re-raise it to its caller: the
call returns that error, no slot of the faulting batch prefix is written
for the faulting source (the whole `_result` dict is as before the call on
the direct wait path), and in the processing loop a fault aborts with the
state reached so far while only `StopAsyncIteration` is converted into the
exhausted marker `_Selected(None)`. -/
theorem ready_fault_propagation {V E : Type} (s : Select V) (name : String)
    (e : E) (rest : List (String × Outcome V E))
    (h1 : ¬ 0 < s.readyCount) (h2 : s.pending ≠ []) :
    (s.ready ((name, Outcome.fault e) :: rest)).ret = .error e ∧
    (s.ready ((name, Outcome.fault e) :: rest)).state.result = s.result ∧
    (∀ (t : Select V) (more : List (String × Outcome V E)),
        processDone ((name, Outcome.fault e) :: more) t = (.error e, t)) ∧
    (∀ (t : Select V) (more : List (String × Outcome V E)),
        processDone ((name, Outcome.stopIter) :: more) t =
          processDone more
            { t with
                readyCount := t.readyCount + 1
                result := setSlot name (Slot.held none) t.result }) := by
  have hne : ¬ s.pending.isEmpty = true := fun hc => h2 (List.isEmpty_iff.mp hc)
  have hmain : s.ready ((name, Outcome.fault e) :: rest) =
      { ret := .error e
        dropped := []
        state := waitState s ((name, Outcome.fault e) :: rest) } := by
    unfold Select.ready
    rw [if_neg h1]
    unfold readyWait
    rw [if_neg hne]
    rfl
  refine ⟨?_, ?_, fun t more => rfl, fun t more => rfl⟩
  · rw [hmain]
  · rw [hmain]
    rfl

/-- Witness for C4: a fault from the only source propagates out of the
first ready call. -/
theorem ready_fault_propagation_witness :
    ((Select.init (V := Nat) ["A"]).ready [("A", Outcome.fault (42 : Nat))]).ret
      = .error 42 :=
  (ready_fault_propagation (Select.init ["A"]) "A" 42 [] (by decide)
    (by decide)).1

/-- C10: a pull that resolves with the ordinary value `None` is processed
exactly like `StopAsyncIteration`: the slot receives the exhausted marker
`_Selected(None)`, the source is not pulled again (the processing states
are identical, so the two are indistinguishable at the claim interface and
that source is permanently stopped), whereas a non-`None` value re-issues a
pull. -/
theorem ok_none_same_as_exhaustion {V E : Type} (name : String)
    (rest : List (String × Outcome V E)) (s : Select V) :
    processDone ((name, Outcome.ok none) :: rest) s =
      processDone ((name, Outcome.stopIter) :: rest) s ∧
    processDone ((name, Outcome.ok (none : Option V)) :: rest) s =
      processDone rest
        { s with
            readyCount := s.readyCount + 1
            result := setSlot name (Slot.held none) s.result } ∧
    (∀ u : V, processDone ((name, Outcome.ok (some u)) :: rest) s =
      processDone rest
        { s with
            readyCount := s.readyCount + 1
            result := setSlot name (Slot.held (some u)) s.result
            pending := s.pending ++ [name] }) :=
  ⟨rfl, rfl, fun _ => rfl⟩

/-! ### Stale-batch behaviour (C1, C2) -/

theorem dropStale_all_empty {V : Type} (s : Select V) :
    ∀ p ∈ (dropStale s).2.result, p.2 = Slot.empty := by
  intro p hp
  obtain ⟨q, _, rfl⟩ := List.mem_map.mp hp
  rfl

theorem lookup_ne_held_of_all_empty {V : Type} (r : List (String × Slot V))
    (hall : ∀ p ∈ r, p.2 = Slot.empty) (n : String) (inner : Option V) :
    r.lookup n ≠ some (Slot.held inner) := by
  intro hc
  have := hall _ (mem_of_lookup_eq_some _ _ _ hc)
  simp at this

/-- State of the multiplexer after its first ready call: one source A, the
pull completed with the value 1; the call returned True via the blocking
path, leaving the staleness baseline at 0. -/
def c1State1 : Select Nat :=
  ((Select.init ["A"]).ready (E := Nat) [("A", Outcome.ok (some 1))]).state

/-- The second ready call on `c1State1`, with no intervening claim. -/
def c1Call2 : ReadyResult Nat Nat := c1State1.ready [("A", Outcome.ok (some 2))]

/-- C1 (counterexample): after `ready` has returned `True` through the
blocking path with slot A holding an unclaimed value, a second call with no
intervening claim does NOT clear the holding slot: it returns `True` again,
reports no dropped source (the diagnostic set is empty, not \x7bA\x7d), and
leaves the stale value in place — the drop only happens on the third call.
This refutes the claim for this reachable state. -/
theorem ready_second_call_counterexample :
    (((Select.init (V := Nat) ["A"]).ready
        (E := Nat) [("A", Outcome.ok (some 1))]).ret = .ok true) ∧
    c1State1.result.lookup "A" = some (Slot.held (some 1)) ∧
    c1Call2.ret = .ok true ∧
    c1Call2.dropped = [] ∧
    c1Call2.state.result.lookup "A" = some (Slot.held (some 1)) := by
  decide

/-- C1 (amended): when `ready` is called in a state where the readiness
counter is positive AND equals the staleness baseline (nothing was claimed
since the baseline was recorded by a short-circuit `True` return), the call
clears every holding slot, the diagnostic reports exactly the holding
source names, and the stale batch is not re-surfaced: any slot holding
afterwards was filled by the fresh wait, and with no outstanding pulls the
call returns `False`. -/
theorem ready_stale_drop_spec {V E : Type} (s : Select V)
    (wake : List (String × Outcome V E))
    (h1 : 0 < s.readyCount) (h2 : s.readyCount = s.prevReadyCount) :
    (s.ready wake).dropped = holdingNames s.result ∧
    (∀ n, n ∉ wake.map Prod.fst → ∀ inner,
        (s.ready wake).state.result.lookup n ≠ some (Slot.held inner)) ∧
    (s.pending = [] → (s.ready wake).ret = .ok false) := by
  unfold Select.ready
  rw [if_pos h1, if_pos h2]
  show (readyWait (dropStale s).1 (dropStale s).2 wake).dropped =
      holdingNames s.result ∧ _ ∧ _
  unfold readyWait
  by_cases hemp : (dropStale s).2.pending.isEmpty = true
  · rw [if_pos hemp]
    refine ⟨rfl, ?_, fun _ => rfl⟩
    intro n _ inner
    exact lookup_ne_held_of_all_empty _ (dropStale_all_empty s) n inner
  · rw [if_neg hemp]
    refine ⟨rfl, ?_, ?_⟩
    · intro n hn inner
      rw [processDone_lookup_not_mem wake _ n hn]
      exact lookup_ne_held_of_all_empty _ (dropStale_all_empty s) n inner
    · intro hp
      exact absurd (by rw [dropStale_pending, hp]; rfl) hemp

/-- Witness for the amended C1 at a concrete stale state. -/
theorem ready_stale_drop_spec_witness :
    ((⟨["A"], [], 1, 1, [("A", Slot.held (some 3))]⟩ : Select Nat).ready
        (E := Nat) []).dropped = holdingNames [("A", Slot.held (some 3))] ∧
    (∀ n, n ∉ (([] : List (String × Outcome Nat Nat)).map Prod.fst) → ∀ inner,
        ((⟨["A"], [], 1, 1, [("A", Slot.held (some 3))]⟩ : Select Nat).ready
          (E := Nat) []).state.result.lookup n ≠ some (Slot.held inner)) ∧
    ((⟨["A"], [], 1, 1, [("A", Slot.held (some 3))]⟩ : Select Nat).pending = []
      → ((⟨["A"], [], 1, 1, [("A", Slot.held (some 3))]⟩ : Select Nat).ready
          (E := Nat) []).ret = .ok false) :=
  ready_stale_drop_spec ⟨["A"], [], 1, 1, [("A", Slot.held (some 3))]⟩ []
    (by decide) (by decide)

/-- State with two unclaimed results (readiness counter 2) whose staleness
baseline has caught up: reached by construction with A and B, a ready call
delivering both values, and a second short-circuit ready call. -/
def c2State : Select Nat :=
  (((Select.init ["A", "B"]).ready
      (E := Nat) [("A", Outcome.ok (some 1)), ("B", Outcome.ok (some 2))]).state.ready
    (E := Nat) [("A", Outcome.ok (some 3))]).state

/-- C2 (counterexample): a `ready` call CAN take the readiness counter from
a positive value to a smaller one: in `c2State` the counter is 2, and the
next ready call (stale-batch drop followed by a wake delivering one value)
leaves it at 1.  Claiming is not the only operation that decreases the
counter. -/
theorem ready_decreases_counter_counterexample :
    c2State.readyCount = 2 ∧
    (c2State.ready (E := Nat) [("A", Outcome.ok (some 3))]).state.readyCount
      = 1 := by
  decide

/-- C2 (amended): apart from the stale-batch drop branch (entered exactly
when the readiness counter is positive and equals the staleness baseline,
where the counter is reset to zero before the fresh wait), no `ready` call
ever decreases the readiness counter; claiming is otherwise the only
decreasing operation. -/
theorem ready_count_no_decrease {V E : Type} (s : Select V)
    (wake : List (String × Outcome V E))
    (h : ¬(0 < s.readyCount ∧ s.readyCount = s.prevReadyCount)) :
    s.readyCount ≤ (s.ready wake).state.readyCount := by
  unfold Select.ready
  by_cases h1 : 0 < s.readyCount
  · have h2 : s.readyCount ≠ s.prevReadyCount := fun hc => h ⟨h1, hc⟩
    rw [if_pos h1, if_neg h2]
  · rw [if_neg h1]
    unfold readyWait
    by_cases hemp : s.pending.isEmpty = true
    · rw [if_pos hemp]
    · rw [if_neg hemp]
      exact processDone_count_mono wake (waitState s wake)

/-- Witness for the amended C2 on a fresh instance. -/
theorem ready_count_no_decrease_witness :
    (Select.init (V := Nat) ["A"]).readyCount ≤
      ((Select.init (V := Nat) ["A"]).ready (E := Nat)
        [("A", Outcome.stopIter)]).state.readyCount :=
  ready_count_no_decrease (Select.init ["A"]) [("A", Outcome.stopIter)]
    (by decide)

/-! ### Exhaustion handling (C9) -/

/-- A source that is out of the game: no outstanding pull carries its name
and its slot holds nothing.  Once a source is in this situation it can
never again surface a value (see `gone_applyOp` inside C9's theorem). -/
def Gone {V : Type} (s : Select V) (name : String) : Prop :=
  name ∉ s.pending ∧ ∀ sl, s.result.lookup name = some sl → sl = Slot.empty

theorem gone_claim {V : Type} (s : Select V) (name other : String)
    (h : Gone s name) : Gone ((s.claim other).2) name := by
  obtain ⟨h1, h2⟩ := h
  unfold Select.claim
  cases hl : s.result.lookup other with
  | none => exact ⟨h1, h2⟩
  | some sl =>
    cases sl with
    | empty => exact ⟨h1, h2⟩
    | held inner =>
      refine ⟨h1, ?_⟩
      intro sl' hsl'
      by_cases hn : name = other
      · subst hn
        rw [lookup_setSlot_self, hl] at hsl'
        cases hsl'
        rfl
      · rw [lookup_setSlot_other other name _ _ hn] at hsl'
        exact h2 sl' hsl'

theorem gone_readyWait {V E : Type} (dropped : List String) (s : Select V)
    (wake : List (String × Outcome V E)) (name : String)
    (h1 : name ∉ s.pending)
    (h2 : ∀ sl, s.result.lookup name = some sl → sl = Slot.empty)
    (hnw : name ∉ wake.map Prod.fst) :
    Gone (readyWait dropped s wake).state name := by
  unfold readyWait
  by_cases hemp : s.pending.isEmpty = true
  · rw [if_pos hemp]
    exact ⟨h1, h2⟩
  · rw [if_neg hemp]
    show Gone (processDone wake (waitState s wake)).2 name
    constructor
    · apply processDone_pending_not_mem wake _ name hnw
      intro hc
      exact h1 ((List.mem_filter.mp hc).1)
    · intro sl hsl
      rw [processDone_lookup_not_mem wake _ name hnw] at hsl
      exact h2 sl hsl

theorem gone_ready {V E : Type} (s : Select V)
    (wake : List (String × Outcome V E)) (name : String)
    (h : Gone s name) (hw : WakeValid s wake) :
    Gone (s.ready wake).state name := by
  obtain ⟨h1, h2⟩ := h
  have hnw : name ∉ wake.map Prod.fst := fun hc => h1 (hw.1 name hc)
  unfold Select.ready
  by_cases hb1 : 0 < s.readyCount
  · by_cases hb2 : s.readyCount = s.prevReadyCount
    · rw [if_pos hb1, if_pos hb2]
      show Gone (readyWait (dropStale s).1 (dropStale s).2 wake).state name
      refine gone_readyWait (dropStale s).1 (dropStale s).2 wake name h1 ?_ hnw
      intro sl hsl
      exact dropStale_all_empty s _ (mem_of_lookup_eq_some _ _ _ hsl)
    · rw [if_pos hb1, if_neg hb2]
      exact ⟨h1, h2⟩
  · rw [if_neg hb1]
    exact gone_readyWait _ _ wake name h1 h2 hnw

/-- First ready call on a single exhausting source. -/
def c9First : ReadyResult Nat Nat :=
  (Select.init ["A"]).ready [("A", Outcome.stopIter)]

/-- Third ready call: the first returned True surfacing A's exhaustion, the
second returned True again (baseline recorded), the third fires the
stale-batch drop — discarding the exhaustion marker. -/
def c9Third : ReadyResult Nat Nat :=
  ((c9First.state.ready (E := Nat) []).state.ready [])

/-- C9 (counterexample): an exhaustion event CAN be lost before being
claimed.  Source A exhausts; ready returns True with the exhausted marker
in A's slot; the consumer never claims; after two more ready calls the
stale-batch drop discards the marker (diagnostic names A), the pending set
is empty, ready returns False, and a subsequent claim of A returns the
"no value available" result — the exhaustion was never observed, refuting
"never lost before being claimed". -/
theorem exhaustion_lost_counterexample :
    c9First.ret = .ok true ∧
    c9First.state.result.lookup "A" = some (Slot.held none) ∧
    (c9First.state.ready (E := Nat) []).ret = .ok true ∧
    c9Third.ret = .ok false ∧
    c9Third.dropped = ["A"] ∧
    c9Third.state.result.lookup "A" = some Slot.empty ∧
    c9Third.state.pending = [] ∧
    (c9Third.state.claim "A").1 = .ok none := by
  decide

/-- C9 (amended): when the wake delivers exhaustion for a registered
source, `ready` sets that source's slot to the exhausted marker
`_Selected(None)`, increments the readiness counter by one, returns `True`,
and removes the source from the outstanding-request set; and once a source
is `Gone` (no outstanding pull, slot empty — as after its exhaustion is
claimed or dropped) every valid operation keeps it `Gone`, so the
exhaustion event is surfaced at most once.  It is lost without ever being
observed when the stale-batch drop discards it (see the counterexample). -/
theorem ready_exhaustion_spec {V E : Type} (s : Select V) (name : String)
    (wake : List (String × Outcome V E))
    (h1 : ¬ 0 < s.readyCount) (h2 : s.pending ≠ [])
    (h3 : (s.result.lookup name).isSome)
    (h4 : wake = [(name, Outcome.stopIter)]) :
    (s.ready wake).ret = .ok true ∧
    (s.ready wake).state.result.lookup name = some (Slot.held none) ∧
    (s.ready wake).state.readyCount = s.readyCount + 1 ∧
    name ∉ (s.ready wake).state.pending ∧
    (∀ (t : Select V) (op : Op V E), Gone t name → OpValid t op →
        Gone (applyOp t op) name) := by
  subst h4
  have hne : ¬ s.pending.isEmpty = true := fun hc => h2 (List.isEmpty_iff.mp hc)
  have hmain : s.ready [(name, Outcome.stopIter (V := V) (E := E))] =
      { ret := .ok true
        dropped := []
        state :=
          { waitState s [(name, Outcome.stopIter (V := V) (E := E))] with
              readyCount :=
                (waitState s
                  [(name, Outcome.stopIter (V := V) (E := E))]).readyCount + 1
              result := setSlot name (Slot.held none)
                (waitState s
                  [(name, Outcome.stopIter (V := V) (E := E))]).result } } := by
    unfold Select.ready
    rw [if_neg h1]
    unfold readyWait
    rw [if_neg hne]
    rfl
  obtain ⟨sl, hsl⟩ := Option.isSome_iff_exists.mp h3
  refine ⟨by rw [hmain], ?_, by rw [hmain]; rfl, ?_, ?_⟩
  · rw [hmain]
    show (setSlot name (Slot.held none) s.result).lookup name
      = some (Slot.held none)
    rw [lookup_setSlot_self, hsl]
    rfl
  · rw [hmain]
    show name ∉ s.pending.filter
      (fun n => !(([(name, Outcome.stopIter (V := V) (E := E))].map
        Prod.fst).contains n))
    intro hc
    have hb := (List.mem_filter.mp hc).2
    have ht : ([(name, Outcome.stopIter (V := V) (E := E))].map
        Prod.fst).contains name = true := List.elem_iff.mpr (by simp)
    rw [ht] at hb
    simp at hb
  · intro t op hg hv
    cases op with
    | ready wake => exact gone_ready t wake name hg hv
    | claim other => exact gone_claim t name other hg

/-- Witness for the amended C9 on a fresh single-source instance. -/
theorem ready_exhaustion_spec_witness :
    ((Select.init (V := Nat) ["A"]).ready
        (E := Nat) [("A", Outcome.stopIter)]).ret = .ok true ∧
    ((Select.init (V := Nat) ["A"]).ready
        (E := Nat) [("A", Outcome.stopIter)]).state.result.lookup "A"
      = some (Slot.held none) ∧
    ((Select.init (V := Nat) ["A"]).ready
        (E := Nat) [("A", Outcome.stopIter)]).state.readyCount
      = (Select.init (V := Nat) ["A"]).readyCount + 1 ∧
    "A" ∉ ((Select.init (V := Nat) ["A"]).ready
        (E := Nat) [("A", Outcome.stopIter)]).state.pending ∧
    (∀ (t : Select Nat) (op : Op Nat Nat), Gone t "A" → OpValid t op →
        Gone (applyOp t op) "A") :=
  ready_exhaustion_spec (Select.init ["A"]) "A" [("A", Outcome.stopIter)]
    (by decide) (by decide) (by decide) rfl
